import Mathlib

/-!
Verification development for the OMNI-PRIME conversation streaming core.

The definitions below are a shallow embedding of the TypeScript sources:

* `src/app/api/chat/stream/route.ts` — the SSE orchestrator
  (`streamConversation`, `convertToSSEChunk`): embedded as `streamConversation`
  over an explicit list of gateway stream chunks, producing a trace of database
  writes, job submissions and emitted SSE frames.
* `src/lib/ai/unifiedGateway.ts` — provider detection and stream dispatch
  (`detectProvider`, `normalizeModel`, `streamCompletion`).
* `src/lib/queue/queues.ts` — the tool queue options and the tool worker's
  `processToolJob` status writes.
* the MCP server manager (`MCPServerManager.executeTool`) — sandbox
  enforcement, the execution/timeout race and the per-connection
  `toolCallCount`.

JavaScript-ambient behaviour is made explicit: `JSON.parse` success is a
`String → Bool` parameter (the route only branches on whether the parse
throws), `crypto.randomUUID` is a `Nat → String` supply, asynchronous stream
delivery is a list of chunks, and the client-abort signal is the number of
chunks processed before `signal.aborted` is first observed true at the top of
the `for await` loop.
-/

namespace OmniPrime

/-! ## Character-level string helpers

These model the JavaScript string primitives (`String.prototype.startsWith`,
substring search, `new URL(...).hostname`) on `List Char`, so that concrete
witnesses evaluate inside the kernel. -/

/-- Model of list-prefix testing: `charsPrefixOf p l` is true when `p` is a
prefix of `l`. -/
def charsPrefixOf : List Char → List Char → Bool
  | [], _ => true
  | _ :: _, [] => false
  | a :: as, b :: bs => a == b && charsPrefixOf as bs

/-- Model of JavaScript `value.startsWith(p)`. -/
def strStartsWith (s p : String) : Bool :=
  charsPrefixOf p.toList s.toList

/-- Substring search on character lists (true when `needle` occurs in `hay`). -/
def charsContains (hay needle : List Char) : Bool :=
  match hay with
  | [] => needle.isEmpty
  | _ :: rest => charsPrefixOf needle hay || charsContains rest needle

/-- Model of JavaScript `value.includes(p)` (substring containment). -/
def strContains (s p : String) : Bool :=
  charsContains s.toList p.toList

/-- Characters ending the hostname component of a URL. -/
def isHostEnd (c : Char) : Bool :=
  c == '/' || c == ':' || c == '?' || c == '#'

/-- Remainder of a character list after the first occurrence of `"://"`. -/
def afterScheme : List Char → Option (List Char)
  | [] => none
  | c :: rest =>
    if charsPrefixOf [':', '/', '/'] (c :: rest) then some (rest.drop 2)
    else afterScheme rest

/-- Model of `new URL(value).hostname`: the characters after the first
`"://"` up to a `/`, `:`, `?` or `#`; `none` when the URL constructor would
throw (no scheme separator, or an empty host). -/
def urlHost (s : String) : Option String :=
  match afterScheme s.toList with
  | none => none
  | some cs =>
    let h := cs.takeWhile (fun c => !isHostEnd c)
    if h.isEmpty then none else some (String.mk h)

/-! ## Data model

Rows of the Drizzle schema used by the streaming orchestrator and the tool
worker.  Only the columns the orchestrator reads or writes are modelled; the
`metadata` JSON bag and timestamp columns are omitted because no claim
mentions them. -/

/-- Status column of a `ToolCall` row (`pending → running → completed|error`). -/
inductive ToolStatus
  | pending
  | running
  | completed
  | error
deriving DecidableEq, Repr

/-- Row of the `mcpTools` table (columns read by the orchestrator's
`db.query.mcpTools.findFirst` lookup). -/
structure MCPToolRow where
  id : String
  serverId : String
  name : String
deriving DecidableEq, Repr

/-- Row of the `messages` table. -/
structure MessageRow where
  id : String
  sessionId : String
  role : String
  content : String
  isComplete : Bool
deriving DecidableEq, Repr

/-- Row of the `toolCalls` table as inserted by the orchestrator.  The parsed
`arguments` JSON is kept as the raw payload string (the insert happens only
when `JSON.parse` succeeded on it). -/
structure ToolCallRow where
  id : String
  messageId : String
  toolId : String
  toolName : String
  argumentsRaw : String
  status : ToolStatus
deriving DecidableEq, Repr

/-- Payload of `addToolExecutionJob` (the BullMQ job data; the parsed
arguments and the fresh `requestId` are omitted — no claim reads them). -/
structure ToolExecutionJob where
  toolCallId : String
  serverId : String
  toolName : String
  sessionId : String
  messageId : String
deriving DecidableEq, Repr

/-- Row of the `chatSessions` table. -/
structure SessionRow where
  id : String
  agentId : Option String
  messageCount : Nat
deriving DecidableEq, Repr

/-- Row of the `agents` table. -/
structure AgentRow where
  id : String
  systemPrompt : String
  modelPreference : String
  totalMessages : Nat
deriving DecidableEq, Repr

/-- The database state read by `streamConversation`: `messages` is kept in
insertion order, which coincides with ascending `createdAt` order. -/
structure DB where
  sessions : List SessionRow
  agents : List AgentRow
  messages : List MessageRow
  mcpTools : List MCPToolRow
deriving Repr

/-! ## Gateway stream vocabulary (`unifiedGateway.ts`) -/

/-- The `toolCall` payload of a gateway `tool_call` chunk; `arguments` is the
accumulated argument string and `isComplete` the gateway's completion
heuristic. -/
structure GatewayToolCall where
  id : String
  name : String
  arguments : String
  isComplete : Bool
deriving DecidableEq, Repr

/-- One `GatewayStreamChunk` of `unifiedGateway.ts`; the optional fields of
the TypeScript interface are kept optional. -/
inductive GatewayStreamChunk
  | content (text : Option String)
  | toolCall (tc : Option GatewayToolCall)
  | usage
  | error (e : Option (String × String))
  | done
deriving DecidableEq, Repr

/-- One entry of the `messages` array passed to
`unifiedGateway.streamCompletion`. -/
structure GatewayMessage where
  role : String
  content : String
deriving DecidableEq, Repr

/-! ## SSE frames and the orchestrator's action trace -/

/-- The SSE frames emitted by `streamConversation` (only the fields the
claims mention; every frame also carries ids and a timestamp in the source). -/
inductive SSEFrame
  | start (messageId : String)
  | contentF (messageId : String) (text : String)
  | toolCallF (messageId : String) (callId : String) (name : String) (args : String)
  | toolPending (messageId : String) (toolCallId : String) (toolName : String)
  | errorF (code : String) (message : String)
  | complete (messageId : String)
deriving DecidableEq, Repr

/-- One observable step of `streamConversation`: a database write, an async
job submission, or an emitted SSE frame, in program order.  The generator has
no action that updates a `ToolCall` row — only the background worker does. -/
inductive Action
  | insertMessage (m : MessageRow)
  | insertToolCall (r : ToolCallRow)
  | submitJob (j : ToolExecutionJob)
  | updateSession (sessionId : String) (newCount : Nat)
  | updateAgent (agentId : String) (newTotal : Nat)
  | emit (f : SSEFrame)
deriving DecidableEq, Repr

/-- Error frame built by `convertToSSEChunk` from a gateway `error` chunk
(`chunk.error ?? \x7b code: "UNKNOWN", message: "Unknown error" \x7d`). -/
def errFrameOf (e : Option (String × String)) : SSEFrame :=
  match e with
  | some p => .errorF p.1 p.2
  | none => .errorF "UNKNOWN" "Unknown error"

/-- Message of the exception `JSON.parse` throws on a malformed payload
(caught by the orchestrator's outer `catch`). -/
def jsonParseErrorMessage : String := "Unexpected end of JSON input"

/-- Model of the JavaScript `chunk.toolCall.arguments || "\x7b\x7d"` fallback
(the empty string is falsy). -/
def argOrEmpty (a : String) : String := if a = "" then "\x7b\x7d" else a

/-- The orchestrator's `db.query.mcpTools.findFirst(\x7b where: eq(mcpTools.name, ...) \x7d)`. -/
def findTool (tools : List MCPToolRow) (nm : String) : Option MCPToolRow :=
  tools.find? (fun t => t.name == nm)

/-! ## The `for await` loop of `streamConversation` -/

/-- Mutable loop state of `streamConversation`: the accumulated assistant
content, the gateway-side ids pushed onto `pendingToolCalls`, and the number
of `crypto.randomUUID()` draws made for `ToolCall` rows. -/
structure LoopSt where
  fullContent : String
  pendingIds : List String
  n : Nat
deriving DecidableEq, Repr

/-- Result of processing one gateway chunk: continue with appended actions,
return after a gateway `error` chunk, or propagate a thrown exception. -/
inductive StepRes
  | cont (acts : List Action) (st : LoopSt)
  | halt (acts : List Action)
  | thrown (msg : String) (acts : List Action)
deriving DecidableEq, Repr

/-- One iteration of the `for await (const chunk of stream)` switch in
`streamConversation` (route.ts lines 183-269): `content` appends truthy text
and emits a frame; `tool_call` always emits a `tool_call` frame, then — when a
tool with that name exists — parses the arguments, inserts the `ToolCall` row
with status `pending`, submits the job and emits `tool_pending`, while a
failing parse throws; `error` emits the converted frame and returns; `usage`
and `done` do nothing. -/
def stepChunk (parse : String → Bool) (uuidAt : Nat → String)
    (tools : List MCPToolRow) (amid sid : String) :
    GatewayStreamChunk → LoopSt → StepRes
  | .content t, st =>
    match t with
    | some s =>
      if s = "" then .cont [] st
      else .cont [.emit (.contentF amid s)] { st with fullContent := st.fullContent ++ s }
    | none => .cont [] st
  | .toolCall tcOpt, st =>
    match tcOpt with
    | none => .cont [] st
    | some tc =>
      let frameActs : List Action := [.emit (.toolCallF amid tc.id tc.name tc.arguments)]
      let st₁ := { st with pendingIds := st.pendingIds ++ [tc.id] }
      match findTool tools tc.name with
      | none => .cont frameActs st₁
      | some tool =>
        let argStr := argOrEmpty tc.arguments
        if parse argStr then
          let tcId := uuidAt st₁.n
          let row : ToolCallRow :=
            ⟨tcId, amid, tool.id, tc.name, argStr, .pending⟩
          let job : ToolExecutionJob :=
            ⟨tcId, tool.serverId, tc.name, sid, amid⟩
          .cont (frameActs ++
              [.insertToolCall row, .submitJob job,
               .emit (.toolPending amid tcId tc.name)])
            { st₁ with n := st₁.n + 1 }
        else .thrown jsonParseErrorMessage frameActs
  | .error e, _st => .halt [.emit (errFrameOf e)]
  | .usage, st => .cont [] st
  | .done, st => .cont [] st

/-- Result of the whole loop: normal exit (end of stream or abort `break`),
early `return` after a gateway `error` chunk, or a thrown exception. -/
inductive LoopRes
  | ok (st : LoopSt) (tr : List Action)
  | errReturn (tr : List Action)
  | exn (msg : String) (tr : List Action)
deriving DecidableEq, Repr

/-- Trace of actions produced by a loop run, whatever its outcome. -/
def LoopRes.trace : LoopRes → List Action
  | .ok _ tr => tr
  | .errReturn tr => tr
  | .exn _ tr => tr

/-- Abort budget countdown: `some k` means the signal becomes aborted after
`k` more chunks are processed. -/
def decAbort : Option Nat → Option Nat
  | some k => some (k - 1)
  | none => none

/-- The `for await` loop over the delivered gateway chunks.  `ab = some k`
models a client abort observed by the `signal.aborted` check at the top of the
loop once `k` chunks have been processed; `ab = none` means the signal never
aborts. -/
def runLoop (parse : String → Bool) (uuidAt : Nat → String)
    (tools : List MCPToolRow) (amid sid : String) :
    Option Nat → List GatewayStreamChunk → LoopSt → LoopRes
  | _, [], st => .ok st []
  | ab, c :: rest, st =>
    if ab = some 0 then .ok st []
    else
      match stepChunk parse uuidAt tools amid sid c st with
      | .cont acts st' =>
        match runLoop parse uuidAt tools amid sid (decAbort ab) rest st' with
        | .ok st'' tr => .ok st'' (acts ++ tr)
        | .errReturn tr => .errReturn (acts ++ tr)
        | .exn m tr => .exn m (acts ++ tr)
      | .halt acts => .errReturn acts
      | .thrown m acts => .exn m acts

/-! ## The full request generator -/

/-- How one run of `streamConversation` ended. -/
inductive RunOutcome
  | sessionNotFound
  | gatewayError
  | fatal (msg : String)
  | finalized (m : MessageRow)
deriving DecidableEq, Repr

/-- Observable result of one run: the message list passed to the gateway
(`none` when the session lookup failed before the gateway call), the outcome,
and the full action trace. -/
structure RunResult where
  sent : Option (List GatewayMessage)
  outcome : RunOutcome
  trace : List Action
deriving Repr

/-- The session lookup `db.query.chatSessions.findFirst(\x7b with: agent \x7d)`
followed by the `!session || !session.agent` guard. -/
def findSessionAgent (db : DB) (sid : String) : Option (SessionRow × AgentRow) :=
  match db.sessions.find? (fun s => s.id == sid) with
  | none => none
  | some s =>
    match s.agentId with
    | none => none
    | some aid =>
      match db.agents.find? (fun a => a.id == aid) with
      | none => none
      | some ag => some (s, ag)

/-- Projection of a history row to the gateway message format. -/
def toGatewayMessage (m : MessageRow) : GatewayMessage :=
  ⟨m.role, m.content⟩

/-- The user `Message` row inserted before the history query (route.ts
lines 119-128). -/
def userRowOf (sessionId userMessage umid : String) : MessageRow :=
  ⟨umid, sessionId, "user", userMessage, true⟩

/-- The history query of route.ts lines 140-151: messages of the session
ordered by `createdAt` descending, limited to 10, then reversed back to
chronological order.  It runs after the user row was inserted. -/
def historyOf (db : DB) (sessionId : String) (userRow : MessageRow) : List MessageRow :=
  (((db.messages ++ [userRow]).filter (fun m => m.sessionId == sessionId)).reverse.take 10).reverse

/-- The `messages` array handed to `unifiedGateway.streamCompletion`
(route.ts lines 173-177): system prompt, history, then the user message again. -/
def gatewayInput (bsp : String → String) (agent : AgentRow) (db : DB)
    (sessionId userMessage umid : String) : List GatewayMessage :=
  ⟨"system", bsp agent.systemPrompt⟩ ::
    ((historyOf db sessionId (userRowOf sessionId userMessage umid)).map toGatewayMessage ++
      [⟨"user", userMessage⟩])

/-- Shallow embedding of `streamConversation` (route.ts lines 94-327).
`parse` models `JSON.parse` success, `uuidAt` the `crypto.randomUUID` supply
for `ToolCall` rows, `bsp` the external `contextInjector.buildSystemPrompt`
collaborator, `umid`/`amid` the pre-drawn user/assistant message ids,
`abortAt` the abort schedule and `chunks` the gateway chunks the generator
receives.  It mirrors the source order: session lookup, user-message insert,
history query (last 10 by `createdAt` descending, then reversed), `start`
frame, the streaming loop, then either finalization (assistant insert with
`isComplete = true`, session counter `+2`, agent counter `+1`, `complete`
frame), the gateway-error early return, or the catch-all `STREAM_ERROR`
frame. -/
def streamConversation (parse : String → Bool) (uuidAt : Nat → String)
    (bsp : String → String) (db : DB) (sessionId userMessage umid amid : String)
    (abortAt : Option Nat) (chunks : List GatewayStreamChunk) : RunResult :=
  match findSessionAgent db sessionId with
  | none =>
    { sent := none, outcome := .sessionNotFound,
      trace := [.emit (.errorF "SESSION_NOT_FOUND" "Session or agent not found")] }
  | some (sess, agent) =>
    let userRow := userRowOf sessionId userMessage umid
    let sent := gatewayInput bsp agent db sessionId userMessage umid
    let pre : List Action := [.insertMessage userRow, .emit (.start amid)]
    match runLoop parse uuidAt db.mcpTools amid sessionId abortAt chunks ⟨"", [], 0⟩ with
    | .ok st tr =>
      let asst : MessageRow := ⟨amid, sessionId, "assistant", st.fullContent, true⟩
      { sent := some sent, outcome := .finalized asst,
        trace := pre ++ tr ++
          [.insertMessage asst,
           .updateSession sessionId (sess.messageCount + 2),
           .updateAgent agent.id (agent.totalMessages + 1),
           .emit (.complete amid)] }
    | .errReturn tr =>
      { sent := some sent, outcome := .gatewayError, trace := pre ++ tr }
    | .exn m tr =>
      { sent := some sent, outcome := .fatal m,
        trace := pre ++ tr ++ [.emit (.errorF "STREAM_ERROR" m)] }

/-! ## Trace observations -/

/-- The `Message` rows a trace inserts, in order. -/
def insertedMessages (tr : List Action) : List MessageRow :=
  tr.filterMap fun a =>
    match a with
    | .insertMessage m => some m
    | _ => none

/-- The `ToolCall` rows a trace inserts, in order. -/
def insertedToolCalls (tr : List Action) : List ToolCallRow :=
  tr.filterMap fun a =>
    match a with
    | .insertToolCall r => some r
    | _ => none

/-- True when the trace contains an insert of a `pending` `ToolCall` row with
id `tcId`, followed later by a job submission for the same id. -/
def insertThenSubmit : List Action → String → Bool
  | [], _ => false
  | a :: rest, tcId =>
    (match a with
     | .insertToolCall r =>
       r.id == tcId && r.status == ToolStatus.pending &&
         rest.any fun b =>
           match b with
           | .submitJob j => j.toolCallId == tcId
           | _ => false
     | _ => false) || insertThenSubmit rest tcId

/-- Checker walking a trace with its processed prefix: every `tool_pending`
frame must be preceded by an insert of the `pending` row with its id and,
after that insert, a job submission with the same id. -/
def pendingProtocolAux (pre : List Action) : List Action → Bool
  | [] => true
  | a :: rest =>
    (match a with
     | .emit (.toolPending _ tcId _) => insertThenSubmit pre tcId
     | _ => true) && pendingProtocolAux (pre ++ [a]) rest

/-- The `tool_pending` ordering discipline over a whole trace. -/
def pendingProtocolB (tr : List Action) : Bool :=
  pendingProtocolAux [] tr

/-! ## MCP server manager (`MCPServerManager.executeTool`)

The per-connection state and the sandbox enforcement of `executeTool`.
`MCPClient.callTool` wraps its entire body in a `try`/`catch` that converts
every failure into a fulfilled `\x7b success: false \x7d` result, so for a
connection held in the manager's map the execution promise always fulfills;
its settlement is modelled by an `ExecBehavior` (result plus duration). -/

/-- A top-level value of the `args` record (`Object.values(args)`): only
string values are inspected by the sandbox checks. -/
inductive ArgValue
  | str (s : String)
  | other
deriving DecidableEq, Repr

/-- The `MCPSandboxConfig` fields enforced by `executeTool`
(`maxMemoryBytes` and `fileSystemScope` are advisory and never read there). -/
structure SandboxConfig where
  maxExecutionTimeMs : Nat
  allowedDomains : Option (List String)
  networkEnabled : Bool
  maxToolCallsPerSession : Option Nat
deriving DecidableEq, Repr

/-- A `ServerConnection` entry of the manager's map (the fields `executeTool`
reads and writes; `lastUsedAt` and the client handle are omitted). -/
structure Connection where
  toolCallCount : Nat
  sandbox : SandboxConfig
deriving DecidableEq, Repr

/-- The `ToolExecutionResult` fulfilled by `MCPClient.callTool`. -/
structure CallToolResult where
  success : Bool
  result : Option String
  error : Option String
  executionTimeMs : Nat
deriving DecidableEq, Repr

/-- Settlement of the execution promise: the fulfilled result and how long it
takes; the `Promise.race` against the timeout compares `durationMs` with
`maxExecutionTimeMs`. -/
structure ExecBehavior where
  result : CallToolResult
  durationMs : Nat
deriving DecidableEq, Repr

/-- Observable outcome of one `executeTool` call: the structured result, the
updated connection entry, and whether the underlying tool call was started. -/
structure ExecToolOutput where
  success : Bool
  result : Option String
  error : Option String
  executionTimeMs : Nat
  conn : Option Connection
  invoked : Bool
deriving DecidableEq, Repr

/-- The network check's URL test:
`value.startsWith("http://") || value.startsWith("https://")`. -/
def isUrlString (s : String) : Bool :=
  strStartsWith s "http://" || strStartsWith s "https://"

/-- `Object.values(args).some(v => typeof v === "string" && isUrlString v)`. -/
def argHasUrl (args : List (String × ArgValue)) : Bool :=
  args.any fun kv =>
    match kv.2 with
    | .str s => isUrlString s
    | .other => false

/-- The quota gate `if (maxToolCallsPerSession)` followed by
`toolCallCount >= maxToolCallsPerSession` (a configured quota of `0` is falsy
in JavaScript, so it disables the check). -/
def quotaExceeded (conn : Connection) : Bool :=
  match conn.sandbox.maxToolCallsPerSession with
  | some q => q != 0 && decide (q ≤ conn.toolCallCount)
  | none => false

/-- First string argument starting with `"http"` whose parsed hostname is not
in the allowlist (values the URL constructor rejects are ignored). -/
def domainViolation (allowed : List String) (args : List (String × ArgValue)) :
    Option String :=
  args.findSome? fun kv =>
    match kv.2 with
    | .str s =>
      if strStartsWith s "http" then
        match urlHost s with
        | some h => if allowed.contains h then none else some h
        | none => none
      else none
    | .other => none

/-- Shallow embedding of `MCPServerManager.executeTool`: connection presence,
quota gate, network gate, domain allowlist, then the `Promise.race` of the
tool call against the `maxExecutionTimeMs` timeout.  Only an execution that
wins the race increments `toolCallCount`; a timeout is caught and reported as
a structured failure whose elapsed time is the timeout itself. -/
def executeTool (serverId : String) (connOpt : Option Connection)
    (args : List (String × ArgValue)) (exec : ExecBehavior) : ExecToolOutput :=
  match connOpt with
  | none =>
    ⟨false, none, some ("Server " ++ serverId ++ " is not connected"), 0, none, false⟩
  | some conn =>
    if quotaExceeded conn then
      ⟨false, none,
       some ("Tool call limit exceeded (" ++
         toString ((conn.sandbox.maxToolCallsPerSession).getD 0) ++ " calls per session)"),
       0, some conn, false⟩
    else if !conn.sandbox.networkEnabled && argHasUrl args then
      ⟨false, none, some "Network access is disabled for this server", 0, some conn, false⟩
    else
      match (match conn.sandbox.allowedDomains with
             | some ds => if ds.isEmpty then none else domainViolation ds args
             | none => none) with
      | some h =>
        ⟨false, none, some ("Domain " ++ h ++ " is not in the allowed list"), 0,
         some conn, false⟩
      | none =>
        if exec.durationMs < conn.sandbox.maxExecutionTimeMs then
          ⟨exec.result.success, exec.result.result, exec.result.error,
           exec.result.executionTimeMs,
           some { conn with toolCallCount := conn.toolCallCount + 1 }, true⟩
        else
          ⟨false, none,
           some ("Tool execution timed out after " ++
             toString conn.sandbox.maxExecutionTimeMs ++ "ms"),
           conn.sandbox.maxExecutionTimeMs, some conn, true⟩

/-- All three sandbox gates of `executeTool` pass. -/
def passesSandbox (conn : Connection) (args : List (String × ArgValue)) : Bool :=
  !quotaExceeded conn &&
  !(!conn.sandbox.networkEnabled && argHasUrl args) &&
  (match conn.sandbox.allowedDomains with
   | some ds => if ds.isEmpty then true else (domainViolation ds args).isNone
   | none => true)

/-- The claim-side reading of "any argument value contains a URL": some
string value has `http://` or `https://` as a substring. -/
def claimContainsUrl (args : List (String × ArgValue)) : Bool :=
  args.any fun kv =>
    match kv.2 with
    | .str s => strContains s "http://" || strContains s "https://"
    | .other => false

/-! ## Gateway provider selection (`unifiedGateway.ts`) -/

/-- The `LLMProvider` union. -/
inductive LLMProvider
  | ollama
  | openai
  | anthropic
deriving DecidableEq, Repr

/-- `UnifiedGateway.detectProvider`: model-prefix routing defaulting to
Ollama. -/
def detectProvider (model : String) : LLMProvider :=
  if strStartsWith model "gpt-" || strStartsWith model "openai/" then .openai
  else if strStartsWith model "claude-" || strStartsWith model "anthropic/" then .anthropic
  else .ollama

/-- `UnifiedGateway.normalizeModel`: strip the first matching provider
namespace from the model string. -/
def normalizeModel (model : String) : String :=
  if strStartsWith model "ollama/" then model.drop 7
  else if strStartsWith model "local/" then model.drop 6
  else if strStartsWith model "openai/" then model.drop 7
  else if strStartsWith model "anthropic/" then model.drop 10
  else model

/-- BYOK enablement flags of the gateway singleton
(`enableCloudProvider` sets the client and the flag together, so one Boolean
per provider suffices). -/
structure GatewayState where
  openaiEnabled : Bool
  anthropicEnabled : Bool
deriving DecidableEq, Repr

/-- Event-level embedding of `UnifiedGateway.streamCompletion`'s provider
dispatch: `ollamaEvents`/`openaiEvents` are the chunk sequences the provider
sub-streams would yield on their network responses; the OpenAI branch is
guarded by the BYOK flag (`streamOpenAI` lines 434-443) and the Anthropic
branch always yields its single `NOT_IMPLEMENTED` error chunk. -/
def streamCompletionEvents (gw : GatewayState) (reqProvider : Option LLMProvider)
    (model : String) (ollamaEvents openaiEvents : List GatewayStreamChunk) :
    List GatewayStreamChunk :=
  match reqProvider.getD (detectProvider model) with
  | .ollama => ollamaEvents
  | .openai =>
    if gw.openaiEnabled then openaiEvents
    else [.error (some ("OPENAI_NOT_ENABLED", "OpenAI BYOK not enabled"))]
  | .anthropic =>
    [.error (some ("NOT_IMPLEMENTED",
      "Anthropic streaming is not yet implemented. Route to Ollama."))]

/-! ## Tool worker (`processToolJob` in the queue module)

The worker's status writes per attempt, and the BullMQ retry loop: the tool
queue is configured with `attempts: 3`, and an attempt that throws (client
unavailable) is retried, while an attempt that returns — whether the tool
succeeded or failed — is final. -/

/-- Environment of one worker attempt: whether `getClient` yields a client,
and whether the (sandboxed) execution result has `success = true`. -/
structure AttemptEnv where
  clientAvailable : Bool
  execSuccess : Bool
deriving DecidableEq, Repr

/-- `attempts` of the tool queue's `defaultJobOptions` (queues.ts line 76). -/
def toolQueueAttempts : Nat := 3

/-- Status writes of one `processToolJob` attempt (in write order) and
whether the attempt re-throws: the attempt first sets `running`
unconditionally; an unavailable client throws, is caught, writes `error` and
re-throws for retry; otherwise the structured result is written as
`completed` or `error` and the attempt returns. -/
def attemptWrites (env : AttemptEnv) : List ToolStatus × Bool :=
  if env.clientAvailable then
    if env.execSuccess then ([.running, .completed], false)
    else ([.running, .error], false)
  else ([.running, .error], true)

/-- Status writes of a job across its (at most `toolQueueAttempts`) attempts:
a further attempt runs only when the previous one threw. -/
def jobStatusWrites : List AttemptEnv → List ToolStatus
  | [] => []
  | e :: rest =>
    let (ws, threw) := attemptWrites e
    ws ++ (if threw then jobStatusWrites rest else [])

/-- Status history of the `ToolCall` row: inserted as `pending` by the
orchestrator, then the worker's writes. -/
def jobStatusTrace (envs : List AttemptEnv) : List ToolStatus :=
  ToolStatus.pending :: jobStatusWrites envs

/-! ## Concrete fixtures for witnesses and counterexamples -/

/-- `JSON.parse` success model used by concrete runs: exactly the payload
`"\x7b\x7d"` parses (as real `JSON.parse` does), and the truncated payloads
used in counterexamples fail (as real `JSON.parse` does). -/
def parseDemo : String → Bool := fun s => decide (s = "\x7b\x7d")

/-- Deterministic uuid supply for concrete runs. -/
def uuidDemo : Nat → String := fun n => "tc-" ++ toString n

/-- A database with one session, its agent, and one registered MCP tool. -/
def dbDemo : DB :=
  { sessions := [⟨"s1", some "a1", 0⟩],
    agents := [⟨"a1", "be helpful", "llama3", 0⟩],
    messages := [],
    mcpTools := [⟨"t1", "srv1", "web_search"⟩] }

/-! ## Loop invariants -/

/-- The `content` field of a chunk (empty for every other chunk kind). -/
def contentOf : GatewayStreamChunk → String
  | .content t => t.getD ""
  | _ => ""

/-- Concatenation, in arrival order, of the `content` fields of the
`content` chunks of a stream. -/
def chunkContents : List GatewayStreamChunk → String
  | [] => ""
  | c :: rest => contentOf c ++ chunkContents rest

/-- A chunk whose processing neither returns early nor throws: not an
`error` chunk, and if it carries a tool call naming a registered tool, the
(declared-complete) arguments payload parses. -/
def cleanChunk (tools : List MCPToolRow) (parse : String → Bool) :
    GatewayStreamChunk → Bool
  | .error _ => false
  | .toolCall (some tc) =>
    match findTool tools tc.name with
    | some _ => parse (argOrEmpty tc.arguments)
    | none => true
  | _ => true

/-- Recognizer for emitted SSE `error` frames. -/
def isErrorEmit : Action → Bool
  | .emit (.errorF _ _) => true
  | _ => false

/-- Number of SSE `error` frames in a trace. -/
def errEmitCount (tr : List Action) : Nat := tr.countP isErrorEmit

/-- Actions appended by one loop step, whatever its control outcome. -/
def StepRes.acts : StepRes → List Action
  | .cont acts _ => acts
  | .halt acts => acts
  | .thrown _ acts => acts

/-- A clean chunk's step continues the loop, extends `fullContent` by exactly
the chunk's `content` field, and emits no `error` frame. -/
theorem stepChunk_clean (parse : String → Bool) (uuidAt : Nat → String)
    (tools : List MCPToolRow) (amid sid : String) (c : GatewayStreamChunk)
    (st : LoopSt) (hc : cleanChunk tools parse c = true) :
    ∃ acts st', stepChunk parse uuidAt tools amid sid c st = .cont acts st' ∧
      st'.fullContent = st.fullContent ++ contentOf c ∧
      errEmitCount acts = 0 := by
  cases c with
  | content t =>
    cases t with
    | none => exact ⟨[], st, rfl, by simp [contentOf], rfl⟩
    | some s =>
      by_cases hs : s = ""
      · subst hs
        exact ⟨[], st, by simp [stepChunk], by simp [contentOf], rfl⟩
      · exact ⟨[.emit (.contentF amid s)],
          { st with fullContent := st.fullContent ++ s },
          by simp [stepChunk, hs], by simp [contentOf],
          by simp [errEmitCount, isErrorEmit]⟩
  | toolCall tcOpt =>
    cases tcOpt with
    | none => exact ⟨[], st, rfl, by simp [contentOf], rfl⟩
    | some tc =>
      simp only [cleanChunk] at hc
      cases hft : findTool tools tc.name with
      | none =>
        refine ⟨[.emit (.toolCallF amid tc.id tc.name tc.arguments)],
          { st with pendingIds := st.pendingIds ++ [tc.id] },
          by simp [stepChunk, hft], by simp [contentOf],
          by simp [errEmitCount, isErrorEmit]⟩
      | some tool =>
        rw [hft] at hc
        simp only at hc
        refine ⟨[.emit (.toolCallF amid tc.id tc.name tc.arguments),
            .insertToolCall ⟨uuidAt st.n, amid, tool.id, tc.name,
              argOrEmpty tc.arguments, .pending⟩,
            .submitJob ⟨uuidAt st.n, tool.serverId, tc.name, sid, amid⟩,
            .emit (.toolPending amid (uuidAt st.n) tc.name)],
          ⟨st.fullContent, st.pendingIds ++ [tc.id], st.n + 1⟩,
          by simp [stepChunk, hft, hc], by simp [contentOf],
          by simp [errEmitCount, isErrorEmit]⟩
  | error e => simp [cleanChunk] at hc
  | usage => exact ⟨[], st, rfl, by simp [contentOf], rfl⟩
  | done => exact ⟨[], st, rfl, by simp [contentOf], rfl⟩

/-- An abort-free run over clean chunks exits the loop normally, accumulates
exactly the concatenated content, and emits no `error` frame. -/
theorem runLoop_clean (parse : String → Bool) (uuidAt : Nat → String)
    (tools : List MCPToolRow) (amid sid : String) :
    ∀ (chunks : List GatewayStreamChunk) (st : LoopSt),
      chunks.all (cleanChunk tools parse) = true →
      ∃ st' tr, runLoop parse uuidAt tools amid sid none chunks st = .ok st' tr ∧
        st'.fullContent = st.fullContent ++ chunkContents chunks ∧
        errEmitCount tr = 0
  | [], st, _ => ⟨st, [], rfl, by simp [chunkContents], rfl⟩
  | c :: rest, st, hall => by
    rw [List.all_cons, Bool.and_eq_true] at hall
    obtain ⟨hc, hrest⟩ := hall
    obtain ⟨acts, st₁, hstep, hcont, herr⟩ :=
      stepChunk_clean parse uuidAt tools amid sid c st hc
    obtain ⟨st₂, tr, hrun, hcont₂, herr₂⟩ :=
      runLoop_clean parse uuidAt tools amid sid rest st₁ hrest
    refine ⟨st₂, acts ++ tr, ?_, ?_, ?_⟩
    · simp only [runLoop, decAbort]
      rw [if_neg (by simp)]
      simp only [hstep, hrun]
    · rw [hcont₂, hcont, chunkContents, String.append_assoc]
    · simp only [errEmitCount, List.countP_append] at herr herr₂ ⊢
      omega

/-- An abort after `a` chunks behaves exactly like a run over only the first
`a` chunks: the `signal.aborted` check breaks out before processing chunk
`a`. -/
theorem runLoop_abort (parse : String → Bool) (uuidAt : Nat → String)
    (tools : List MCPToolRow) (amid sid : String) :
    ∀ (a : Nat) (chunks : List GatewayStreamChunk) (st : LoopSt),
      runLoop parse uuidAt tools amid sid (some a) chunks st =
        runLoop parse uuidAt tools amid sid none (chunks.take a) st
  | _, [], st => by simp [runLoop]
  | 0, _ :: _, st => by simp [runLoop]
  | (k + 1), c :: rest, st => by
    simp only [runLoop, List.take_succ_cons]
    rw [if_neg (by simp), if_neg (by simp)]
    cases hstep : stepChunk parse uuidAt tools amid sid c st with
    | cont acts st' =>
      simp only [decAbort, Nat.add_sub_cancel]
      rw [runLoop_abort parse uuidAt tools amid sid k rest st']
    | halt acts => rfl
    | thrown m acts => rfl

/-- A loop run over `xs ++ ys` whose `xs` part exits normally is the `xs`
run followed by the `ys` run, with traces concatenated. -/
theorem runLoop_append (parse : String → Bool) (uuidAt : Nat → String)
    (tools : List MCPToolRow) (amid sid : String) :
    ∀ (xs : List GatewayStreamChunk) (st st' : LoopSt) (tr : List Action),
      runLoop parse uuidAt tools amid sid none xs st = .ok st' tr →
      ∀ ys, runLoop parse uuidAt tools amid sid none (xs ++ ys) st =
        match runLoop parse uuidAt tools amid sid none ys st' with
        | .ok st'' tr' => .ok st'' (tr ++ tr')
        | .errReturn tr' => .errReturn (tr ++ tr')
        | .exn m tr' => .exn m (tr ++ tr')
  | [], st, st', tr, h, ys => by
    simp only [runLoop] at h
    cases h
    cases hr : runLoop parse uuidAt tools amid sid none ys st <;> simp [hr]
  | c :: rest, st, st', tr, h, ys => by
    simp only [runLoop, decAbort] at h
    rw [if_neg (by simp)] at h
    cases hstep : stepChunk parse uuidAt tools amid sid c st with
    | cont acts st₁ =>
      simp only [hstep] at h
      cases hrun : runLoop parse uuidAt tools amid sid none rest st₁ with
      | ok st₂ tr₂ =>
        simp only [hrun] at h
        cases h
        have ih := runLoop_append parse uuidAt tools amid sid rest st₁ st' tr₂ hrun ys
        simp only [List.cons_append, runLoop, decAbort]
        rw [if_neg (by simp)]
        simp only [hstep, List.append_eq]
        rw [ih]
        cases hr : runLoop parse uuidAt tools amid sid none ys st' <;>
          simp [hr, List.append_assoc]
      | errReturn tr₂ => simp only [hrun] at h; cases h
      | exn m tr₂ => simp only [hrun] at h; cases h
    | halt acts => simp only [hstep] at h; cases h
    | thrown m acts => simp only [hstep] at h; cases h

/-- Every action of every loop-step block satisfies `p`, hence so does the
whole loop trace. -/
theorem runLoop_trace_all (parse : String → Bool) (uuidAt : Nat → String)
    (tools : List MCPToolRow) (amid sid : String) (p : Action → Bool)
    (hstep : ∀ c st, ((stepChunk parse uuidAt tools amid sid c st).acts).all p = true) :
    ∀ (ab : Option Nat) (chunks : List GatewayStreamChunk) (st : LoopSt),
      ((runLoop parse uuidAt tools amid sid ab chunks st).trace).all p = true
  | _, [], _ => rfl
  | ab, c :: rest, st => by
    simp only [runLoop]
    by_cases hab : ab = some 0
    · simp [hab, LoopRes.trace]
    · rw [if_neg hab]
      have hs := hstep c st
      cases hstepEq : stepChunk parse uuidAt tools amid sid c st with
      | cont acts st' =>
        rw [hstepEq] at hs
        simp only [StepRes.acts] at hs
        have ih := runLoop_trace_all parse uuidAt tools amid sid p hstep
          (decAbort ab) rest st'
        cases hrun : runLoop parse uuidAt tools amid sid (decAbort ab) rest st' <;>
          rw [hrun] at ih <;>
          simp_all [LoopRes.trace, List.all_append]
      | halt acts =>
        rw [hstepEq] at hs
        simpa [LoopRes.trace, StepRes.acts] using hs
      | thrown m acts =>
        rw [hstepEq] at hs
        simpa [LoopRes.trace, StepRes.acts] using hs

/-- No loop-step block ever inserts a `Message` row: only the finalization
after the loop does. -/
theorem stepChunk_no_message (parse : String → Bool) (uuidAt : Nat → String)
    (tools : List MCPToolRow) (amid sid : String)
    (c : GatewayStreamChunk) (st : LoopSt) :
    ((stepChunk parse uuidAt tools amid sid c st).acts).all
      (fun a => match a with | Action.insertMessage _ => false | _ => true) = true := by
  cases c with
  | content t =>
    cases t with
    | none => rfl
    | some s =>
      by_cases hs : s = "" <;> simp [stepChunk, hs, StepRes.acts]
  | toolCall tcOpt =>
    cases tcOpt with
    | none => rfl
    | some tc =>
      cases hft : findTool tools tc.name with
      | none => simp [stepChunk, hft, StepRes.acts]
      | some tool =>
        cases hp : parse (argOrEmpty tc.arguments) <;>
          simp [stepChunk, hft, hp, StepRes.acts]
  | error e => simp [stepChunk, StepRes.acts]
  | usage => rfl
  | done => rfl

/-- The loop trace inserts no `Message` rows. -/
theorem runLoop_insertedMessages (parse : String → Bool) (uuidAt : Nat → String)
    (tools : List MCPToolRow) (amid sid : String) (ab : Option Nat)
    (chunks : List GatewayStreamChunk) (st : LoopSt) :
    insertedMessages ((runLoop parse uuidAt tools amid sid ab chunks st).trace) = [] := by
  have h := runLoop_trace_all parse uuidAt tools amid sid
    (fun a => match a with | Action.insertMessage _ => false | _ => true)
    (stepChunk_no_message parse uuidAt tools amid sid) ab chunks st
  rw [List.all_eq_true] at h
  rw [insertedMessages, List.filterMap_eq_nil_iff]
  intro a ha
  have := h a ha
  cases a <;> simp_all

/-- The gateway `error` chunk always converts to an SSE `error` frame. -/
theorem isErrorEmit_errFrameOf (e : Option (String × String)) :
    isErrorEmit (.emit (errFrameOf e)) = true := by
  cases e <;> rfl

/-! ## C1 -/

/-- C1: for every request whose gateway stream runs to a `done` event — the
client never aborts, no `error` chunk arrives, and every detected tool call
has a parseable payload — the assistant `Message` persisted at finalization
has content equal to the concatenation, in arrival order, of the `content`
fields of the gateway `content` events, with role `assistant` and
`isComplete = true`. -/
theorem C1_assistant_content_is_stream_concat
    (parse : String → Bool) (uuidAt : Nat → String) (bsp : String → String)
    (db : DB) (sessionId userMessage umid amid : String)
    (chunks : List GatewayStreamChunk)
    (hsess : (findSessionAgent db sessionId).isSome = true)
    (hclean : chunks.all (cleanChunk db.mcpTools parse) = true)
    (hdone : GatewayStreamChunk.done ∈ chunks) :
    (streamConversation parse uuidAt bsp db sessionId userMessage umid amid
        none chunks).outcome
      = .finalized ⟨amid, sessionId, "assistant", chunkContents chunks, true⟩ ∧
    Action.insertMessage ⟨amid, sessionId, "assistant", chunkContents chunks, true⟩ ∈
      (streamConversation parse uuidAt bsp db sessionId userMessage umid amid
        none chunks).trace := by
  rw [Option.isSome_iff_exists] at hsess
  obtain ⟨⟨sess, agent⟩, hfs⟩ := hsess
  obtain ⟨st', tr, hrun, hcont, -⟩ :=
    runLoop_clean parse uuidAt db.mcpTools amid sessionId chunks ⟨"", [], 0⟩ hclean
  have hfc : st'.fullContent = chunkContents chunks := by simpa using hcont
  constructor
  · simp [streamConversation, hfs, hrun, hfc]
  · simp [streamConversation, hfs, hrun, hfc]

/-- Witness for C1 at a concrete two-chunk stream ending in `done`. -/
theorem C1_assistant_content_is_stream_concat_witness :
    (streamConversation parseDemo uuidDemo (fun s => s) dbDemo "s1" "hi" "um" "am"
        none [.content (some "4"), .done]).outcome
      = .finalized ⟨"am", "s1", "assistant",
          chunkContents [.content (some "4"), .done], true⟩ ∧
    Action.insertMessage ⟨"am", "s1", "assistant",
        chunkContents [.content (some "4"), .done], true⟩ ∈
      (streamConversation parseDemo uuidDemo (fun s => s) dbDemo "s1" "hi" "um" "am"
        none [.content (some "4"), .done]).trace :=
  C1_assistant_content_is_stream_concat parseDemo uuidDemo (fun s => s) dbDemo
    "s1" "hi" "um" "am" [.content (some "4"), .done]
    (by decide) (by decide) (by decide)

/-! ## C2 -/

/-- C2: when the gateway yields an `error` chunk (after any clean prefix and
with no abort before it), the generator emits exactly one SSE `error` frame,
that frame is its last output, the run ends in the gateway-error state, and
every `Message` row it persisted is the user message — in particular no
assistant `Message` (complete or otherwise) is persisted. -/
theorem C2_gateway_error_is_terminal_and_discards
    (parse : String → Bool) (uuidAt : Nat → String) (bsp : String → String)
    (db : DB) (sessionId userMessage umid amid : String)
    (pre post : List GatewayStreamChunk) (e : Option (String × String))
    (hsess : (findSessionAgent db sessionId).isSome = true)
    (hpre : pre.all (cleanChunk db.mcpTools parse) = true) :
    (streamConversation parse uuidAt bsp db sessionId userMessage umid amid none
        (pre ++ GatewayStreamChunk.error e :: post)).outcome = .gatewayError ∧
    errEmitCount (streamConversation parse uuidAt bsp db sessionId userMessage umid amid none
        (pre ++ GatewayStreamChunk.error e :: post)).trace = 1 ∧
    (streamConversation parse uuidAt bsp db sessionId userMessage umid amid none
        (pre ++ GatewayStreamChunk.error e :: post)).trace.getLast?
      = some (.emit (errFrameOf e)) ∧
    (insertedMessages (streamConversation parse uuidAt bsp db sessionId userMessage umid amid
        none (pre ++ GatewayStreamChunk.error e :: post)).trace).all
      (fun m => m.role == "user") = true := by
  rw [Option.isSome_iff_exists] at hsess
  obtain ⟨⟨sess, agent⟩, hfs⟩ := hsess
  obtain ⟨st', tr, hrun, -, herr⟩ :=
    runLoop_clean parse uuidAt db.mcpTools amid sessionId pre ⟨"", [], 0⟩ hpre
  have herrstep :
      runLoop parse uuidAt db.mcpTools amid sessionId none
        (GatewayStreamChunk.error e :: post) st' = .errReturn [.emit (errFrameOf e)] := by
    simp [runLoop, stepChunk]
  have happ := runLoop_append parse uuidAt db.mcpTools amid sessionId pre
    ⟨"", [], 0⟩ st' tr hrun (GatewayStreamChunk.error e :: post)
  rw [herrstep] at happ
  have hmsg : insertedMessages tr = [] := by
    have := runLoop_insertedMessages parse uuidAt db.mcpTools amid sessionId
      none pre ⟨"", [], 0⟩
    rw [hrun] at this
    exact this
  refine ⟨?_, ?_, ?_, ?_⟩
  · simp [streamConversation, hfs, happ]
  · simp only [streamConversation, hfs, happ]
    simp only [errEmitCount] at herr ⊢
    rw [List.countP_append, List.countP_append, herr]
    cases e <;> simp [List.countP_cons, isErrorEmit, errFrameOf]
  · simp only [streamConversation, hfs, happ]
    rw [show ([Action.insertMessage (userRowOf sessionId userMessage umid),
          Action.emit (SSEFrame.start amid)] ++ (tr ++ [Action.emit (errFrameOf e)]))
        = ([Action.insertMessage (userRowOf sessionId userMessage umid),
          Action.emit (SSEFrame.start amid)] ++ tr) ++ [Action.emit (errFrameOf e)]
      from by simp]
    exact List.getLast?_concat _
  · simp only [streamConversation, hfs, happ]
    simp only [insertedMessages] at hmsg
    simp [insertedMessages, List.filterMap_append, hmsg, userRowOf]

/-- Witness for C2 at a concrete stream failing after one content fragment. -/
theorem C2_gateway_error_is_terminal_and_discards_witness :
    (streamConversation parseDemo uuidDemo (fun s => s) dbDemo "s1" "hi" "um" "am" none
        ([.content (some "par")] ++ GatewayStreamChunk.error (some ("OLLAMA_ERROR", "boom")) :: [])).outcome
      = .gatewayError ∧
    errEmitCount (streamConversation parseDemo uuidDemo (fun s => s) dbDemo "s1" "hi" "um" "am" none
        ([.content (some "par")] ++ GatewayStreamChunk.error (some ("OLLAMA_ERROR", "boom")) :: [])).trace = 1 ∧
    (streamConversation parseDemo uuidDemo (fun s => s) dbDemo "s1" "hi" "um" "am" none
        ([.content (some "par")] ++ GatewayStreamChunk.error (some ("OLLAMA_ERROR", "boom")) :: [])).trace.getLast?
      = some (.emit (errFrameOf (some ("OLLAMA_ERROR", "boom")))) ∧
    (insertedMessages (streamConversation parseDemo uuidDemo (fun s => s) dbDemo "s1" "hi" "um" "am"
        none ([.content (some "par")] ++ GatewayStreamChunk.error (some ("OLLAMA_ERROR", "boom")) :: [])).trace).all
      (fun m => m.role == "user") = true :=
  C2_gateway_error_is_terminal_and_discards parseDemo uuidDemo (fun s => s) dbDemo
    "s1" "hi" "um" "am" [.content (some "par")] [] (some ("OLLAMA_ERROR", "boom"))
    (by decide) (by decide)

/-! ## C8 -/

/-- C8: when the abort signal is observed after `a` chunks while more gateway
events are still arriving (`a < chunks.length`), the generator breaks out of
the loop yet still finalizes: it persists the content accumulated so far as
an assistant `Message` with `isComplete = true`, bumps the session's
`messageCount` by 2, and its last output is the `complete` frame. -/
theorem C8_abort_persists_partial_content
    (parse : String → Bool) (uuidAt : Nat → String) (bsp : String → String)
    (db : DB) (sessionId userMessage umid amid : String)
    (a : Nat) (chunks : List GatewayStreamChunk)
    (sess : SessionRow) (agent : AgentRow)
    (hfs : findSessionAgent db sessionId = some (sess, agent))
    (ha : a < chunks.length)
    (hclean : (chunks.take a).all (cleanChunk db.mcpTools parse) = true) :
    (streamConversation parse uuidAt bsp db sessionId userMessage umid amid
        (some a) chunks).outcome
      = .finalized ⟨amid, sessionId, "assistant", chunkContents (chunks.take a), true⟩ ∧
    Action.insertMessage
        ⟨amid, sessionId, "assistant", chunkContents (chunks.take a), true⟩ ∈
      (streamConversation parse uuidAt bsp db sessionId userMessage umid amid
        (some a) chunks).trace ∧
    Action.updateSession sessionId (sess.messageCount + 2) ∈
      (streamConversation parse uuidAt bsp db sessionId userMessage umid amid
        (some a) chunks).trace ∧
    (streamConversation parse uuidAt bsp db sessionId userMessage umid amid
        (some a) chunks).trace.getLast? = some (.emit (.complete amid)) := by
  have htake := runLoop_abort parse uuidAt db.mcpTools amid sessionId a chunks ⟨"", [], 0⟩
  obtain ⟨st', tr, hrun, hcont, -⟩ :=
    runLoop_clean parse uuidAt db.mcpTools amid sessionId (chunks.take a) ⟨"", [], 0⟩ hclean
  rw [hrun] at htake
  have hfc : st'.fullContent = chunkContents (chunks.take a) := by simpa using hcont
  refine ⟨?_, ?_, ?_, ?_⟩
  · simp [streamConversation, hfs, htake, hfc]
  · simp [streamConversation, hfs, htake, hfc]
  · simp [streamConversation, hfs, htake]
  · simp only [streamConversation, hfs, htake]
    rw [List.getLast?_append_of_ne_nil _ (by simp)]
    rfl

/-- Witness for C8: abort observed after the first of two content chunks. -/
theorem C8_abort_persists_partial_content_witness :
    (streamConversation parseDemo uuidDemo (fun s => s) dbDemo "s1" "hi" "um" "am"
        (some 1) [.content (some "par"), .content (some "tial")]).outcome
      = .finalized ⟨"am", "s1", "assistant",
          chunkContents ([.content (some "par"), .content (some "tial")].take 1), true⟩ ∧
    Action.insertMessage ⟨"am", "s1", "assistant",
        chunkContents ([.content (some "par"), .content (some "tial")].take 1), true⟩ ∈
      (streamConversation parseDemo uuidDemo (fun s => s) dbDemo "s1" "hi" "um" "am"
        (some 1) [.content (some "par"), .content (some "tial")]).trace ∧
    Action.updateSession "s1" (0 + 2) ∈
      (streamConversation parseDemo uuidDemo (fun s => s) dbDemo "s1" "hi" "um" "am"
        (some 1) [.content (some "par"), .content (some "tial")]).trace ∧
    (streamConversation parseDemo uuidDemo (fun s => s) dbDemo "s1" "hi" "um" "am"
        (some 1) [.content (some "par"), .content (some "tial")]).trace.getLast?
      = some (.emit (.complete "am")) :=
  C8_abort_persists_partial_content parseDemo uuidDemo (fun s => s) dbDemo
    "s1" "hi" "um" "am" 1 [.content (some "par"), .content (some "tial")]
    ⟨"s1", some "a1", 0⟩ ⟨"a1", "be helpful", "llama3", 0⟩
    (by decide) (by decide) (by decide)

/-! ## C10 -/

/-- A cons list ending in an appended singleton has that singleton as its
last element. -/
theorem getLast?_cons_concat {α : Type} (x a : α) (l : List α) :
    (x :: (l ++ [a])).getLast? = some a := by
  rw [show x :: (l ++ [a]) = (x :: l) ++ [a] from rfl]
  exact List.getLast?_concat _

/-- Dropping the final element of a list ending in two appended singletons
exposes the first of them as the new last element. -/
theorem dropLast_getLast?_cons_concat {α : Type} (x a b : α) (l : List α) :
    (x :: ((l ++ [b]) ++ [a])).dropLast.getLast? = some b := by
  rw [show x :: ((l ++ [b]) ++ [a]) = (x :: (l ++ [b])) ++ [a] from by simp,
    List.dropLast_concat]
  exact getLast?_cons_concat x b l

/-- The message list built for the gateway ends with the request's user
message twice: once as the most recent history entry (the user row was
inserted before the history query) and once as the explicitly appended final
user message. -/
theorem gatewayInput_user_twice (bsp : String → String) (agent : AgentRow)
    (db : DB) (sessionId userMessage umid : String) :
    (gatewayInput bsp agent db sessionId userMessage umid).getLast?
      = some ⟨"user", userMessage⟩ ∧
    (gatewayInput bsp agent db sessionId userMessage umid).dropLast.getLast?
      = some ⟨"user", userMessage⟩ := by
  unfold gatewayInput historyOf
  rw [List.filter_append]
  rw [show List.filter (fun m => m.sessionId == sessionId)
        [userRowOf sessionId userMessage umid]
      = [userRowOf sessionId userMessage umid] from by simp [userRowOf]]
  rw [List.reverse_append]
  rw [show ([userRowOf sessionId userMessage umid].reverse)
      = [userRowOf sessionId userMessage umid] from rfl]
  rw [List.singleton_append]
  rw [show (10 : Nat) = 9 + 1 from rfl]
  rw [List.take_succ_cons, List.reverse_cons, List.map_append]
  rw [show (List.map toGatewayMessage [userRowOf sessionId userMessage umid])
      = [(⟨"user", userMessage⟩ : GatewayMessage)] from rfl]
  exact ⟨getLast?_cons_concat _ _ _, dropLast_getLast?_cons_concat _ _ _ _⟩

/-- C10: whenever a run reaches the streaming phase (the gateway is actually
called, i.e. `sent` is produced), the message list passed to the gateway
contains the new user message twice — as the most recent history entry and
again as the final appended user-role message. -/
theorem C10_user_message_sent_twice
    (parse : String → Bool) (uuidAt : Nat → String) (bsp : String → String)
    (db : DB) (sessionId userMessage umid amid : String)
    (abortAt : Option Nat) (chunks : List GatewayStreamChunk)
    (msgs : List GatewayMessage)
    (hsent : (streamConversation parse uuidAt bsp db sessionId userMessage umid amid
        abortAt chunks).sent = some msgs) :
    msgs.getLast? = some ⟨"user", userMessage⟩ ∧
    msgs.dropLast.getLast? = some ⟨"user", userMessage⟩ := by
  cases hfs : findSessionAgent db sessionId with
  | none => simp [streamConversation, hfs] at hsent
  | some p =>
    obtain ⟨sess, agent⟩ := p
    have hmsgs : msgs = gatewayInput bsp agent db sessionId userMessage umid := by
      cases hr : runLoop parse uuidAt db.mcpTools amid sessionId abortAt chunks
          ⟨"", [], 0⟩ <;>
        · simp only [streamConversation, hfs, hr] at hsent
          exact (Option.some.injEq _ _ ▸ hsent).symm
    rw [hmsgs]
    exact gatewayInput_user_twice bsp agent db sessionId userMessage umid

/-- Witness for C10 at a concrete run whose gateway call happens. -/
theorem C10_user_message_sent_twice_witness :
    ([⟨"system", "be helpful"⟩, ⟨"user", "hi"⟩, ⟨"user", "hi"⟩] :
        List GatewayMessage).getLast? = some ⟨"user", "hi"⟩ ∧
    ([⟨"system", "be helpful"⟩, ⟨"user", "hi"⟩, ⟨"user", "hi"⟩] :
        List GatewayMessage).dropLast.getLast? = some ⟨"user", "hi"⟩ :=
  C10_user_message_sent_twice parseDemo uuidDemo (fun s => s) dbDemo
    "s1" "hi" "um" "am" none [] [⟨"system", "be helpful"⟩, ⟨"user", "hi"⟩, ⟨"user", "hi"⟩]
    (by decide)

/-! ## C6 -/

/-- An insert/submit pair found in the suffix is still found after extending
the scanned prefix on the left. -/
theorem insertThenSubmit_append_right (l1 l2 : List Action) (tcId : String)
    (h : insertThenSubmit l2 tcId = true) :
    insertThenSubmit (l1 ++ l2) tcId = true := by
  induction l1 with
  | nil => simpa using h
  | cons a l1 ih =>
    simp only [List.cons_append, insertThenSubmit, List.append_eq]
    rw [ih]
    simp

/-- The pending-protocol checker composes over concatenation when the second
part holds for the extended prefix. -/
theorem pendingProtocolAux_append (xs ys : List Action) :
    ∀ pre, pendingProtocolAux pre xs = true →
      pendingProtocolAux (pre ++ xs) ys = true →
      pendingProtocolAux pre (xs ++ ys) = true := by
  induction xs with
  | nil => intro pre _ h2; simpa using h2
  | cons a xs ih =>
    intro pre h1 h2
    simp only [pendingProtocolAux, Bool.and_eq_true] at h1
    obtain ⟨hcond, haux⟩ := h1
    simp only [List.cons_append, pendingProtocolAux, Bool.and_eq_true]
    refine ⟨hcond, ?_⟩
    apply ih (pre ++ [a]) haux
    rw [← List.append_cons]
    exact h2

/-- A trace without `tool_pending` frames passes the checker under any
prefix. -/
theorem pendingProtocolAux_no_pending (l : List Action)
    (h : l.all (fun a =>
      match a with
      | Action.emit (SSEFrame.toolPending _ _ _) => false
      | _ => true) = true) :
    ∀ pre, pendingProtocolAux pre l = true := by
  induction l with
  | nil => intro _; rfl
  | cons a l ih =>
    intro pre
    rw [List.all_cons, Bool.and_eq_true] at h
    obtain ⟨ha, hl⟩ := h
    simp only [pendingProtocolAux, Bool.and_eq_true]
    refine ⟨?_, ih hl (pre ++ [a])⟩
    cases a with
    | emit f => cases f <;> simp_all
    | _ => rfl

/-- Every loop-step block passes the pending-protocol checker under any
prefix: the only block emitting a `tool_pending` frame contains, before that
frame, the `pending` row insert and then the job submission for the same
fresh id. -/
theorem stepChunk_pendingProtocol (parse : String → Bool) (uuidAt : Nat → String)
    (tools : List MCPToolRow) (amid sid : String)
    (c : GatewayStreamChunk) (st : LoopSt) (pre : List Action) :
    pendingProtocolAux pre ((stepChunk parse uuidAt tools amid sid c st).acts) = true := by
  cases c with
  | content t =>
    cases t with
    | none => rfl
    | some s =>
      by_cases hs : s = "" <;>
        simp [stepChunk, hs, StepRes.acts, pendingProtocolAux]
  | toolCall tcOpt =>
    cases tcOpt with
    | none => rfl
    | some tc =>
      cases hft : findTool tools tc.name with
      | none => simp [stepChunk, hft, StepRes.acts, pendingProtocolAux]
      | some tool =>
        cases hp : parse (argOrEmpty tc.arguments) with
        | false => simp [stepChunk, hft, hp, StepRes.acts, pendingProtocolAux]
        | true =>
          have hsub : insertThenSubmit
              ([.emit (.toolCallF amid tc.id tc.name tc.arguments),
                .insertToolCall ⟨uuidAt st.n, amid, tool.id, tc.name,
                  argOrEmpty tc.arguments, .pending⟩,
                .submitJob ⟨uuidAt st.n, tool.serverId, tc.name, sid, amid⟩] :
                List Action) (uuidAt st.n) = true := by
            simp [insertThenSubmit, List.any_cons]
          have happ := insertThenSubmit_append_right pre _ _ hsub
          simp [stepChunk, hft, hp, StepRes.acts, pendingProtocolAux] at happ ⊢
          exact happ
  | error e => cases e <;> simp [stepChunk, StepRes.acts, pendingProtocolAux, errFrameOf]
  | usage => rfl
  | done => rfl

/-- The whole loop trace passes the pending-protocol checker. -/
theorem runLoop_pendingProtocol (parse : String → Bool) (uuidAt : Nat → String)
    (tools : List MCPToolRow) (amid sid : String) :
    ∀ (ab : Option Nat) (chunks : List GatewayStreamChunk) (st : LoopSt)
      (pre : List Action),
      pendingProtocolAux pre ((runLoop parse uuidAt tools amid sid ab chunks st).trace) = true
  | _, [], _, _ => rfl
  | ab, c :: rest, st, pre => by
    simp only [runLoop]
    by_cases hab : ab = some 0
    · simp [hab, LoopRes.trace, pendingProtocolAux]
    · rw [if_neg hab]
      have hb := stepChunk_pendingProtocol parse uuidAt tools amid sid c st pre
      cases hstepEq : stepChunk parse uuidAt tools amid sid c st with
      | cont acts st' =>
        rw [hstepEq] at hb
        simp only [StepRes.acts] at hb
        have ih := runLoop_pendingProtocol parse uuidAt tools amid sid
          (decAbort ab) rest st' (pre ++ acts)
        cases hrun : runLoop parse uuidAt tools amid sid (decAbort ab) rest st' with
        | ok st'' tr =>
          rw [hrun] at ih
          simp only [LoopRes.trace] at ih
          simp only [hstepEq, hrun, LoopRes.trace]
          exact pendingProtocolAux_append acts tr pre hb ih
        | errReturn tr =>
          rw [hrun] at ih
          simp only [LoopRes.trace] at ih
          simp only [hstepEq, hrun, LoopRes.trace]
          exact pendingProtocolAux_append acts tr pre hb ih
        | exn m tr =>
          rw [hrun] at ih
          simp only [LoopRes.trace] at ih
          simp only [hstepEq, hrun, LoopRes.trace]
          exact pendingProtocolAux_append acts tr pre hb ih
      | halt acts =>
        rw [hstepEq] at hb
        simpa [hstepEq, LoopRes.trace, StepRes.acts] using hb
      | thrown m acts =>
        rw [hstepEq] at hb
        simpa [hstepEq, LoopRes.trace, StepRes.acts] using hb

/-- Every `ToolCall` row a loop-step block inserts has status `pending`. -/
theorem stepChunk_inserts_pending (parse : String → Bool) (uuidAt : Nat → String)
    (tools : List MCPToolRow) (amid sid : String)
    (c : GatewayStreamChunk) (st : LoopSt) :
    ((stepChunk parse uuidAt tools amid sid c st).acts).all
      (fun a =>
        match a with
        | Action.insertToolCall r => r.status == ToolStatus.pending
        | _ => true) = true := by
  cases c with
  | content t =>
    cases t with
    | none => rfl
    | some s => by_cases hs : s = "" <;> simp [stepChunk, hs, StepRes.acts]
  | toolCall tcOpt =>
    cases tcOpt with
    | none => rfl
    | some tc =>
      cases hft : findTool tools tc.name with
      | none => simp [stepChunk, hft, StepRes.acts]
      | some tool =>
        cases hp : parse (argOrEmpty tc.arguments) <;>
          simp [stepChunk, hft, hp, StepRes.acts]
  | error e => simp [stepChunk, StepRes.acts]
  | usage => rfl
  | done => rfl

/-- Rows collected by `insertedToolCalls` inherit a per-action `all`. -/
theorem insertedToolCalls_all_pending (tr : List Action)
    (h : tr.all (fun a =>
      match a with
      | Action.insertToolCall r => r.status == ToolStatus.pending
      | _ => true) = true) :
    (insertedToolCalls tr).all (fun r => r.status == ToolStatus.pending) = true := by
  rw [List.all_eq_true] at h ⊢
  intro r hr
  rw [insertedToolCalls, List.mem_filterMap] at hr
  obtain ⟨a, ha, hfa⟩ := hr
  have := h a ha
  cases a <;> simp_all

/-- C6: in every run, each `tool_pending` SSE frame is preceded — in trace
order — by the insert of the `ToolCall` row with that id in status `pending`
and, between insert and frame, by the async job submission for the same id;
moreover every `ToolCall` row the orchestrator ever inserts has status
`pending`, and no orchestrator action updates a `ToolCall` row, so the row
still exists in status `pending` right after the frame even if the worker
never runs. -/
theorem C6_pending_row_and_submit_precede_frame
    (parse : String → Bool) (uuidAt : Nat → String) (bsp : String → String)
    (db : DB) (sessionId userMessage umid amid : String)
    (abortAt : Option Nat) (chunks : List GatewayStreamChunk) :
    pendingProtocolB (streamConversation parse uuidAt bsp db sessionId userMessage
        umid amid abortAt chunks).trace = true ∧
    (insertedToolCalls (streamConversation parse uuidAt bsp db sessionId userMessage
        umid amid abortAt chunks).trace).all
      (fun r => r.status == ToolStatus.pending) = true := by
  cases hfs : findSessionAgent db sessionId with
  | none => constructor <;> simp [streamConversation, hfs, pendingProtocolB,
      pendingProtocolAux, insertedToolCalls]
  | some p =>
    obtain ⟨sess, agent⟩ := p
    have hloopP := runLoop_pendingProtocol parse uuidAt db.mcpTools amid sessionId
      abortAt chunks ⟨"", [], 0⟩
    have hloopS := runLoop_trace_all parse uuidAt db.mcpTools amid sessionId
      (fun a =>
        match a with
        | Action.insertToolCall r => r.status == ToolStatus.pending
        | _ => true)
      (stepChunk_inserts_pending parse uuidAt db.mcpTools amid sessionId)
      abortAt chunks ⟨"", [], 0⟩
    cases hrun : runLoop parse uuidAt db.mcpTools amid sessionId abortAt chunks
        ⟨"", [], 0⟩ with
    | ok st' tr =>
      rw [hrun] at hloopP hloopS
      simp only [LoopRes.trace] at hloopP hloopS
      constructor
      · simp only [streamConversation, hfs, hrun, pendingProtocolB]
        apply pendingProtocolAux_append
        · apply pendingProtocolAux_append
          · exact pendingProtocolAux_no_pending _ (by rfl) []
          · exact hloopP _
        · exact pendingProtocolAux_no_pending _ (by rfl) _
      · simp only [streamConversation, hfs, hrun]
        have hS := insertedToolCalls_all_pending tr hloopS
        simp only [insertedToolCalls] at hS ⊢
        simp [List.filterMap_append, List.all_append, hS]
    | errReturn tr =>
      rw [hrun] at hloopP hloopS
      simp only [LoopRes.trace] at hloopP hloopS
      constructor
      · simp only [streamConversation, hfs, hrun, pendingProtocolB]
        apply pendingProtocolAux_append
        · exact pendingProtocolAux_no_pending _ (by rfl) []
        · exact hloopP _
      · simp only [streamConversation, hfs, hrun]
        have hS := insertedToolCalls_all_pending tr hloopS
        simp only [insertedToolCalls] at hS ⊢
        simp [List.filterMap_append, List.all_append, hS]
    | exn m tr =>
      rw [hrun] at hloopP hloopS
      simp only [LoopRes.trace] at hloopP hloopS
      constructor
      · simp only [streamConversation, hfs, hrun, pendingProtocolB]
        apply pendingProtocolAux_append
        · apply pendingProtocolAux_append
          · exact pendingProtocolAux_no_pending _ (by rfl) []
          · exact hloopP _
        · exact pendingProtocolAux_no_pending _ (by rfl) _
      · simp only [streamConversation, hfs, hrun]
        have hS := insertedToolCalls_all_pending tr hloopS
        simp only [insertedToolCalls] at hS ⊢
        simp [List.filterMap_append, List.all_append, hS]

/-! ## C3 -/

/-- C3 counterexample: a first worker attempt whose `getClient` fails writes
the terminal status `error` and re-throws; the BullMQ retry (within the
queue's 3 attempts) then runs `processToolJob` again, whose first step
unconditionally sets the same row back to `running` — a terminal state is
followed by `running` in the row's status history. -/
theorem C3_counterexample :
    jobStatusTrace [⟨false, true⟩, ⟨true, true⟩]
      = [ToolStatus.pending, ToolStatus.running, ToolStatus.error,
         ToolStatus.running, ToolStatus.completed] ∧
    (jobStatusTrace [⟨false, true⟩, ⟨true, true⟩])[2]? = some ToolStatus.error ∧
    (jobStatusTrace [⟨false, true⟩, ⟨true, true⟩])[3]? = some ToolStatus.running ∧
    ([⟨false, true⟩, ⟨true, true⟩] : List AttemptEnv).length ≤ toolQueueAttempts := by
  decide

/-- C3 amended: within a single worker attempt the row only moves
`running → completed` or `running → error`, and no worker write ever sets a
row back to `pending`; monotonicity across attempts fails, because a retried
attempt begins by writing `running` again (see the counterexample). -/
theorem C3_amended_single_attempt_monotonic :
    (∀ env : AttemptEnv,
      (attemptWrites env).1 = [ToolStatus.running, ToolStatus.completed] ∨
      (attemptWrites env).1 = [ToolStatus.running, ToolStatus.error]) ∧
    (∀ envs : List AttemptEnv,
      (jobStatusWrites envs).all (fun s => s != ToolStatus.pending) = true) := by
  constructor
  · intro env
    rcases env with ⟨ca, es⟩
    cases ca <;> cases es <;> simp [attemptWrites]
  · intro envs
    induction envs with
    | nil => rfl
    | cons e rest ih =>
      rcases e with ⟨ca, es⟩
      cases ca <;> cases es <;>
        simp [jobStatusWrites, attemptWrites, List.all_append, ih]

/-! ## C4 -/

/-- C4 counterexample: with `networkEnabled = false`, an argument value that
contains `http://` but does not start with it passes the `startsWith` network
gate, so the tool is invoked, the call can succeed, and `toolCallCount` is
incremented — the claim's "contains a URL" reading is false on the code. -/
theorem C4_counterexample :
    claimContainsUrl [("q", ArgValue.str "see http://evil.example")] = true ∧
    (⟨60000, none, false, some 100⟩ : SandboxConfig).networkEnabled = false ∧
    (executeTool "srv1" (some ⟨0, ⟨60000, none, false, some 100⟩⟩)
        [("q", ArgValue.str "see http://evil.example")]
        ⟨⟨true, some "ok", none, 5⟩, 5⟩).success = true ∧
    (executeTool "srv1" (some ⟨0, ⟨60000, none, false, some 100⟩⟩)
        [("q", ArgValue.str "see http://evil.example")]
        ⟨⟨true, some "ok", none, 5⟩, 5⟩).invoked = true ∧
    (executeTool "srv1" (some ⟨0, ⟨60000, none, false, some 100⟩⟩)
        [("q", ArgValue.str "see http://evil.example")]
        ⟨⟨true, some "ok", none, 5⟩, 5⟩).conn
      = some ⟨1, ⟨60000, none, false, some 100⟩⟩ := by
  decide

/-- C4 amended: on a connection with `networkEnabled = false`, if some
argument value starts with `http://` or `https://`, `executeTool` returns a
structured failure with `executionTimeMs = 0` without starting the tool call
and without incrementing `toolCallCount` (when the quota gate fires first the
result is likewise a structured failure with no side effects). -/
theorem C4_amended_network_gate
    (serverId : String) (conn : Connection) (args : List (String × ArgValue))
    (exec : ExecBehavior)
    (hnet : conn.sandbox.networkEnabled = false)
    (hurl : argHasUrl args = true) :
    (executeTool serverId (some conn) args exec).success = false ∧
    (executeTool serverId (some conn) args exec).executionTimeMs = 0 ∧
    (executeTool serverId (some conn) args exec).invoked = false ∧
    (executeTool serverId (some conn) args exec).conn = some conn := by
  by_cases hq : quotaExceeded conn = true
  · simp [executeTool, hq]
  · simp [executeTool, hq, hnet, hurl]

/-- Witness for the amended C4 at a concrete blocked call. -/
theorem C4_amended_network_gate_witness :
    (executeTool "srv1" (some ⟨0, ⟨60000, none, false, some 100⟩⟩)
        [("url", ArgValue.str "http://example.com/page")]
        ⟨⟨true, some "ok", none, 5⟩, 5⟩).success = false ∧
    (executeTool "srv1" (some ⟨0, ⟨60000, none, false, some 100⟩⟩)
        [("url", ArgValue.str "http://example.com/page")]
        ⟨⟨true, some "ok", none, 5⟩, 5⟩).executionTimeMs = 0 ∧
    (executeTool "srv1" (some ⟨0, ⟨60000, none, false, some 100⟩⟩)
        [("url", ArgValue.str "http://example.com/page")]
        ⟨⟨true, some "ok", none, 5⟩, 5⟩).invoked = false ∧
    (executeTool "srv1" (some ⟨0, ⟨60000, none, false, some 100⟩⟩)
        [("url", ArgValue.str "http://example.com/page")]
        ⟨⟨true, some "ok", none, 5⟩, 5⟩).conn
      = some ⟨0, ⟨60000, none, false, some 100⟩⟩ :=
  C4_amended_network_gate "srv1" ⟨0, ⟨60000, none, false, some 100⟩⟩
    [("url", ArgValue.str "http://example.com/page")]
    ⟨⟨true, some "ok", none, 5⟩, 5⟩ (by decide) (by decide)

/-! ## C9 -/

/-- C9: `toolCallCount` is incremented exactly when all sandbox gates pass
and the execution promise fulfills before the `maxExecutionTimeMs` race;
quota-, network- and domain-rejected calls and timed-out calls leave the
counter unchanged, so a timed-out call does not consume the per-session
quota. -/
theorem C9_toolCallCount_increment_characterization
    (serverId : String) (conn : Connection) (args : List (String × ArgValue))
    (exec : ExecBehavior) :
    (executeTool serverId (some conn) args exec).conn =
      some (if passesSandbox conn args = true ∧
              exec.durationMs < conn.sandbox.maxExecutionTimeMs
            then { conn with toolCallCount := conn.toolCallCount + 1 }
            else conn) := by
  by_cases hq : quotaExceeded conn = true
  · simp [executeTool, passesSandbox, hq]
  · by_cases hn : (!conn.sandbox.networkEnabled && argHasUrl args) = true
    · simp [executeTool, passesSandbox, hq, hn]
    · cases had : conn.sandbox.allowedDomains with
      | none =>
        by_cases ht : exec.durationMs < conn.sandbox.maxExecutionTimeMs <;>
          simp [executeTool, passesSandbox, hq, hn, had, ht]
      | some ds =>
        by_cases he : ds.isEmpty = true
        · by_cases ht : exec.durationMs < conn.sandbox.maxExecutionTimeMs <;>
            simp [executeTool, passesSandbox, hq, hn, had, he, ht]
        · cases hdv : domainViolation ds args with
          | some h => simp [executeTool, passesSandbox, hq, hn, had, he, hdv]
          | none =>
            by_cases ht : exec.durationMs < conn.sandbox.maxExecutionTimeMs <;>
              simp [executeTool, passesSandbox, hq, hn, had, he, hdv, ht]

/-! ## C5 -/

/-- C5: the orchestrator ignores the `isComplete` flag.  A `tool_call` chunk
with `isComplete = false` still gets a `tool_call` SSE frame; when its
declared payload fails `JSON.parse`, the exception escapes to the outer
`catch`, which terminates the whole stream with a single `STREAM_ERROR`
frame and persists nothing — not a per-call malformed-tool-call error; and a
parseable `isComplete = false` chunk even gets its row inserted and its job
submitted. -/
theorem C5_incomplete_toolcall_is_fatal :
    (streamConversation parseDemo uuidDemo (fun s => s) dbDemo "s1" "hi" "um" "am" none
        [.toolCall (some ⟨"call_1", "web_search", "\x7b\"q\":", false⟩)]).outcome
      = .fatal jsonParseErrorMessage ∧
    Action.emit (.toolCallF "am" "call_1" "web_search" "\x7b\"q\":") ∈
      (streamConversation parseDemo uuidDemo (fun s => s) dbDemo "s1" "hi" "um" "am" none
        [.toolCall (some ⟨"call_1", "web_search", "\x7b\"q\":", false⟩)]).trace ∧
    (streamConversation parseDemo uuidDemo (fun s => s) dbDemo "s1" "hi" "um" "am" none
        [.toolCall (some ⟨"call_1", "web_search", "\x7b\"q\":", false⟩)]).trace.getLast?
      = some (.emit (.errorF "STREAM_ERROR" jsonParseErrorMessage)) ∧
    insertedToolCalls (streamConversation parseDemo uuidDemo (fun s => s) dbDemo
        "s1" "hi" "um" "am" none
        [.toolCall (some ⟨"call_1", "web_search", "\x7b\"q\":", false⟩)]).trace = [] ∧
    (insertedMessages (streamConversation parseDemo uuidDemo (fun s => s) dbDemo
        "s1" "hi" "um" "am" none
        [.toolCall (some ⟨"call_1", "web_search", "\x7b\"q\":", false⟩)]).trace).all
      (fun m => m.role == "user") = true ∧
    (insertedToolCalls (streamConversation parseDemo uuidDemo (fun s => s) dbDemo
        "s1" "hi" "um" "am" none
        [.toolCall (some ⟨"call_2", "web_search", "\x7b\x7d", false⟩), .done]).trace).length
      = 1 ∧
    Action.emit (.toolPending "am" "tc-0" "web_search") ∈
      (streamConversation parseDemo uuidDemo (fun s => s) dbDemo "s1" "hi" "um" "am" none
        [.toolCall (some ⟨"call_2", "web_search", "\x7b\x7d", false⟩), .done]).trace := by
  decide

/-! ## C7 -/

/-- C7 counterexample: a `gpt-` model routed to OpenAI without BYOK
enablement fails with a single terminal error event whose code is
`OPENAI_NOT_ENABLED`, not `PROVIDER_NOT_ENABLED` as claimed. -/
theorem C7_counterexample :
    streamCompletionEvents ⟨false, false⟩ none "gpt-4" [] []
      = [.error (some ("OPENAI_NOT_ENABLED", "OpenAI BYOK not enabled"))] ∧
    ("OPENAI_NOT_ENABLED" == "PROVIDER_NOT_ENABLED") = false := by
  decide

/-- C7 amended: provider selection is derived from the model prefix with
unknown prefixes routed to Ollama; a request routed to OpenAI without BYOK
enablement yields the single terminal error event `OPENAI_NOT_ENABLED`, and a
request routed to Anthropic yields the single terminal error event
`NOT_IMPLEMENTED` whether or not it was enabled. -/
theorem C7_amended_provider_routing
    (gw : GatewayState) (ollamaEvents openaiEvents : List GatewayStreamChunk) :
    (∀ model : String,
      strStartsWith model "gpt-" = false → strStartsWith model "openai/" = false →
      strStartsWith model "claude-" = false → strStartsWith model "anthropic/" = false →
      detectProvider model = .ollama ∧
      streamCompletionEvents gw none model ollamaEvents openaiEvents = ollamaEvents) ∧
    (∀ model : String, gw.openaiEnabled = false → detectProvider model = .openai →
      streamCompletionEvents gw none model ollamaEvents openaiEvents
        = [.error (some ("OPENAI_NOT_ENABLED", "OpenAI BYOK not enabled"))]) ∧
    (∀ model : String, detectProvider model = .anthropic →
      streamCompletionEvents gw none model ollamaEvents openaiEvents
        = [.error (some ("NOT_IMPLEMENTED",
            "Anthropic streaming is not yet implemented. Route to Ollama."))]) := by
  refine ⟨?_, ?_, ?_⟩
  · intro model h1 h2 h3 h4
    have hdet : detectProvider model = .ollama := by
      simp [detectProvider, h1, h2, h3, h4]
    exact ⟨hdet, by simp [streamCompletionEvents, hdet]⟩
  · intro model hen hdet
    simp [streamCompletionEvents, hdet, hen]
  · intro model hdet
    simp [streamCompletionEvents, hdet]

/-- Witness for the amended C7 at three concrete models. -/
theorem C7_amended_provider_routing_witness :
    (detectProvider "mistral:7b" = LLMProvider.ollama ∧
     streamCompletionEvents ⟨false, false⟩ none "mistral:7b"
        [.content (some "hello")] [] = [.content (some "hello")]) ∧
    streamCompletionEvents ⟨false, false⟩ none "gpt-4" [.content (some "hello")] []
      = [.error (some ("OPENAI_NOT_ENABLED", "OpenAI BYOK not enabled"))] ∧
    streamCompletionEvents ⟨false, false⟩ none "claude-3-opus-20240229"
        [.content (some "hello")] []
      = [.error (some ("NOT_IMPLEMENTED",
          "Anthropic streaming is not yet implemented. Route to Ollama."))] :=
  ⟨(C7_amended_provider_routing ⟨false, false⟩ [.content (some "hello")] []).1
      "mistral:7b" (by decide) (by decide) (by decide) (by decide),
   (C7_amended_provider_routing ⟨false, false⟩ [.content (some "hello")] []).2.1
      "gpt-4" rfl (by decide),
   (C7_amended_provider_routing ⟨false, false⟩ [.content (some "hello")] []).2.2
      "claude-3-opus-20240229" (by decide)⟩

end OmniPrime
